import Mathlib

/-!
Shallow embedding of the `gerben::Vec` growable-array engine
(`src/vector.hpp`, `src/vector.cpp`), instantiated at element type `Int`
(the element type is a template parameter; all claims are about integer
scenarios). A container state is its logical element sequence together
with its capacity; `size` is the length of the sequence, matching
`VecBase::size_` which always equals the number of constructed elements.
-/

namespace Gerben

/-- The observable state of a `gerben::Vec<int>`: the constructed elements
`data` (so `size = data.length`, mirroring `VecBase::size_`) and the
capacity `cap` (mirroring `VecBase::cap_`). The raw base pointer is not
observable and is not modelled. -/
structure Model where
  data : List Int
  cap : Nat
deriving Repr, DecidableEq

/-- A default-constructed `Vec`: no elements, `cap_ = 0` (`vector.hpp:153-155`). -/
def emptyVec : Model := ⟨[], 0⟩

/-- The container invariant `size ≤ capacity`. -/
def inv (v : Model) : Prop := v.data.length ≤ v.cap

instance (v : Model) : Decidable (inv v) := by unfold inv; infer_instance

/-- Modelled from the spec: the capacity computed by `VecBase::GrowOutline`.
Its declaration is `vector.hpp:149` but its definition is not under `src/`
(`src/vector.cpp` defines the evolving `PmrBuffer::GrowOutline` variant with a
different signature, which corroborates the doubling branch via
`std::max<uint32_t>(newcap, cap * 2)` at `vector.cpp:60`). Spec §4.2: if the
current capacity is 0 the new capacity is `max(requested, 1)`; otherwise it is
`max(requested, current * 2)`. -/
def growCap (cap req : Nat) : Nat := if cap = 0 then max req 1 else max req (2 * cap)

/-- Model of `VecBase::Relocate<T>` (`vector.hpp:88-97`): element-wise migration, moving
element `i` of the old buffer into slot `i` of the new buffer for `i < size`.
(The `memcpy` fast path of `GrowOutline` copies the same bytes.) -/
def relocate (l : List Int) : List Int := List.ofFn (fun i : Fin l.length => l.get i)

/-- Model of `VecBase::Grow<T>` (`vector.hpp:139-146`): replace the buffer, migrating the
existing elements when a buffer exists (`cap ≠ 0`); when `cap = 0` the pointer
slot holds a memory resource and there are no elements to migrate. -/
def grow (v : Model) (req : Nat) : Model :=
  ⟨if v.cap = 0 then v.data else relocate v.data, growCap v.cap req⟩

/-- Model of `VecBase::Add<T>` (`vector.hpp:112-121`), the engine of `push_back`
(`vector.hpp:206`): grow when `size ≥ cap` (with default requested capacity 0),
then construct the new element at index `size` and increment the size. -/
def pushBack (v : Model) (x : Int) : Model :=
  let s := v.data.length
  let v1 := if v.cap ≤ s then grow v 0 else v
  ⟨v1.data ++ [x], v1.cap⟩

/-- Model of `VecBase::Remove<T>` (`vector.hpp:122-130`), the engine of `pop_back`
(`vector.hpp:208`): move the last element out, destroy its slot, decrement the
size. Precondition `size > 0`. -/
def popBack (v : Model) : Int × Model :=
  (v.data.getD (v.data.length - 1) 0, ⟨v.data.dropLast, v.cap⟩)

/-- Model of `VecBase::Reserve<T>` (`vector.hpp:131-136`), the engine of `reserve`
(`vector.hpp:203`): grow with requested capacity `newcap` only when
`newcap > cap`. -/
def reserveOp (v : Model) (n : Nat) : Model :=
  if v.cap < n then grow v n else v

/-- Model of `Vec::clear` (`vector.hpp:210`): destroy every element, set size to 0. -/
def clear (v : Model) : Model := ⟨[], v.cap⟩

/-- Model of `VecBase::Swap` (`vector.hpp:99-103`), the engine of `Vec::swap` and of the
move operations: exchange the two records (base pointer, size, capacity) —
i.e. the two observable states — wholesale. -/
def swap (a b : Model) : Model × Model := (b, a)

/-- Model of `VecBase::operator=(VecBase&&)` (`vector.hpp:73-76`), used by
`Vec::operator=(Vec&&) = default` (`vector.hpp:170`): move assignment is
`Swap(other)` — the target takes the source's state and the source takes the
target's former state. Returns (new target state, new source state). -/
def moveAssign (a b : Model) : Model × Model := swap a b

/-- Model of `VecBase(VecBase&&)` (`vector.hpp:70-72`), used by `Vec(Vec&&) = default`
(`vector.hpp:169`): default-construct the new object (empty state), then
`Swap(other)`. Returns (new object's state, source's state afterwards). -/
def moveCtor (src : Model) : Model × Model := swap emptyVec src

/-- Model of `Vec::resize(uint32_t)` (`vector.hpp:212-221`): shrink by destroying the
postfix, or reserve and default-construct (`T()`, i.e. `0` for `int`) the new
slots. (`Reserve(s)` at `vector.hpp:216` is read as `Reserve<T>(s)`.) -/
def resize (v : Model) (s : Nat) : Model :=
  if s ≤ v.data.length then ⟨v.data.take s, v.cap⟩
  else
    let v1 := reserveOp v s
    ⟨v1.data ++ List.replicate (s - v1.data.length) 0, v1.cap⟩

/-- The construction loop of `Vec::resize(uint32_t, const T&)`
(`vector.hpp:228-235`): for `i` from `size` to `s`, copy-construct the fill
value into slot `i`; `mk i = none` models the copy constructor throwing at
slot `i`, upon which the loop sets the size to `i` (`SetSize(i)`) and
re-signals the failure (the `Bool` result, `true` = failure propagated). -/
def fillLoop (data : List Int) (mk : Nat → Option Int) (i s : Nat) : List Int × Bool :=
  if i < s then
    match mk i with
    | some x => fillLoop (data ++ [x]) mk (i + 1) s
    | none => (data, true)
  else (data, false)
termination_by s - i

/-- The elements the construction loop of `Vec::resize(uint32_t, const T&)`
builds into slots `[i, k)` when every copy-construction in that range
succeeds: slot `i + j` receives the value produced by `mk (i + j)`. -/
def builtChunk (mk : Nat → Option Int) (i k : Nat) : List Int :=
  (List.range (k - i)).map (fun j => (mk (i + j)).getD 0)

/-- Model of `Vec::resize(uint32_t, const T&)` (`vector.hpp:222-238`): shrink by
destroying the postfix, or reserve and copy-construct the fill value into the
new slots, rolling the size back to the last successfully constructed slot on
failure. (`Reserve(s)` at `vector.hpp:226` is read as `Reserve<T>(s)`.) -/
def resizeFill (v : Model) (s : Nat) (mk : Nat → Option Int) : Model × Bool :=
  if s ≤ v.data.length then (⟨v.data.take s, v.cap⟩, false)
  else
    let v1 := reserveOp v s
    let r := fillLoop v1.data mk v1.data.length s
    (⟨r.1, v1.cap⟩, r.2)

/-- Model of `Vec::at` (`vector.hpp:254`): bounds-checked access; `ThrowOutOfRange()`
(`vector.cpp:7-13`) is modelled as `Except.error ()`. `at` is a read-only
accessor: it takes no state in and hands no state back, so the container is
unchanged by construction. -/
def atIdx (v : Model) (idx : Nat) : Except Unit Int :=
  if v.data.length ≤ idx then .error () else .ok (v.data.getD idx 0)

/-- Model of `Vec::erase(T*, T*)` (`vector.hpp:271-286`) with `first`/`last` given as
indices: when `last - first = 0` the function executes `return;` — a return
statement with no value in a function returning `T*` — so no pointer value is
produced (modelled as `none`) and the state is untouched. Otherwise the first
loop move-assigns each surviving tail element `d = last - first` slots down
(net effect on the constructed prefix: `take first ++ drop last`), the second
loop destroys the now-unused tail slots, the size drops by `d`, and `ret`
(= `first`) is returned. -/
def erase (v : Model) (first last : Nat) : Model × Option Nat :=
  if last - first = 0 then (v, none)
  else (⟨v.data.take first ++ v.data.drop last, v.cap⟩, some first)

/-- Model of `std::rotate(base + first, base + mid, base + size)` as used by `insert`
(`vector.hpp:291`): the range `[first, size)` becomes `[mid, size)` followed by
`[first, mid)`. -/
def rotateSeg (l : List Int) (first mid : Nat) : List Int :=
  l.take first ++ l.drop mid ++ (l.drop first).take (mid - first)

/-- Model of `Vec::insert(T*, T)` (`vector.hpp:287-292`) with the position given as an
index: record `i = position - data()` and `s = size()`, `push_back` the new
element, then rotate the appended block into place. -/
def insert (v : Model) (pos : Nat) (x : Int) : Model :=
  let s := v.data.length
  let v1 := pushBack v x
  ⟨rotateSeg v1.data pos s, v1.cap⟩

/-- Model of `xs.foldl` of `push_back`, the tail loop of `assign` (`vector.hpp:251`). -/
def pushList (v : Model) (xs : List Int) : Model := xs.foldl pushBack v

/-- Model of `Vec::assign(It, It)` (`vector.hpp:240-252`) with the source range given as
a list: overwrite existing elements in place while both the container and the
source have elements left; if the source runs out first, `resize(idx)`
truncates to the elements overwritten so far (= the whole source); otherwise
`push_back` the remaining source elements. -/
def assign (v : Model) (xs : List Int) : Model :=
  if xs.length ≤ v.data.length then ⟨xs, v.cap⟩
  else pushList ⟨xs.take v.data.length, v.cap⟩ (xs.drop v.data.length)

/-- The public mutating operations of `Vec` (`vector.hpp:161-323`), as a
syntax of container programs (unary operations; `swap` is handled separately
in `Reachable` since it involves two containers). -/
inductive Op where
  | push (x : Int)
  | pop
  | reserve (n : Nat)
  | resize (n : Nat)
  | resizeFill (n : Nat) (mk : Nat → Option Int)
  | insert (pos : Nat) (x : Int)
  | erase (first last : Nat)
  | assign (xs : List Int)
  | clear

/-- Apply one public operation to a container state. -/
def applyOp (v : Model) : Op → Model
  | .push x => pushBack v x
  | .pop => (popBack v).2
  | .reserve n => reserveOp v n
  | .resize n => resize v n
  | .resizeFill n mk => (resizeFill v n mk).1
  | .insert pos x => insert v pos x
  | .erase f l => (erase v f l).1
  | .assign xs => assign v xs
  | .clear => clear v

/-- Run a sequence of public operations, first to last. -/
def runOps (ops : List Op) (v : Model) : Model := ops.foldl applyOp v

/-- The states of a `LocalCapture` scope (`vector.hpp:328-340`): the original
slot (`global_`), which after the constructor's `global->~T()` holds no live
object (`none`), and the local value (`*this`, the `T` base subobject). -/
structure CaptureState where
  globalSlot : Option Model
  localV : Model

/-- Model of `LocalCapture::LocalCapture` (`vector.hpp:333-335`): move-construct the
local value from `*global` (the local takes the container's state), then
destroy the moved-from original, leaving the slot without a live object. -/
def captureCtor (g : Model) : CaptureState := ⟨none, (moveCtor g).1⟩

/-- Model of `LocalCapture::~LocalCapture` (`vector.hpp:337-339`): placement-new a `T`
into the original slot, move-constructed from the local value. -/
def captureDtor (c : CaptureState) : Model := (moveCtor c.localV).1

/-- A whole capture scope: construct the capture over a container in state
`v`, perform `ops` through the capture (they act on the local value), then run
the destructor, which restores the state to the original slot. The result is
the observable state left in the original slot. -/
def captureRun (v : Model) (ops : List Op) : Model :=
  let c0 := captureCtor v
  let c1 : CaptureState := ⟨c0.globalSlot, runOps ops c0.localV⟩
  captureDtor c1

/-- The container states reachable from an empty container by public
operations performed within their preconditions (`pop_back` needs a non-empty
container, `insert` a position inside the container, `erase` a valid half-open
range; `swap` needs a second reachable container and yields both results). -/
inductive Reachable : Model → Prop where
  | empty : Reachable emptyVec
  | push {v} (x : Int) : Reachable v → Reachable (pushBack v x)
  | pop {v} : Reachable v → 0 < v.data.length → Reachable (popBack v).2
  | reserve {v} (n : Nat) : Reachable v → Reachable (reserveOp v n)
  | resize {v} (n : Nat) : Reachable v → Reachable (resize v n)
  | resizeFill {v} (n : Nat) (mk : Nat → Option Int) :
      Reachable v → Reachable (resizeFill v n mk).1
  | insert {v} (pos : Nat) (x : Int) :
      Reachable v → pos ≤ v.data.length → Reachable (insert v pos x)
  | erase {v} (first last : Nat) : Reachable v →
      first ≤ last → last ≤ v.data.length → Reachable (erase v first last).1
  | assign {v} (xs : List Int) : Reachable v → Reachable (assign v xs)
  | clear {v} : Reachable v → Reachable (clear v)
  | swapFst {a b} : Reachable a → Reachable b → Reachable (swap a b).1
  | swapSnd {a b} : Reachable a → Reachable b → Reachable (swap a b).2

lemma relocate_eq (l : List Int) : relocate l = l := by
  simp [relocate, List.ofFn_get]

lemma grow_data (v : Model) (req : Nat) : (grow v req).data = v.data := by
  unfold grow
  by_cases h : v.cap = 0 <;> simp [h, relocate_eq]

lemma growCap_ge_req (cap req : Nat) : req ≤ growCap cap req := by
  unfold growCap
  by_cases h : cap = 0 <;> simp [h]

lemma growCap_pos (cap req : Nat) : 0 < growCap cap req := by
  unfold growCap
  by_cases h : cap = 0 <;> simp [h]
  omega

lemma reserveOp_data (v : Model) (n : Nat) : (reserveOp v n).data = v.data := by
  unfold reserveOp
  by_cases h : v.cap < n <;> simp [h, grow_data]

lemma reserveOp_cap_ge (v : Model) (n : Nat) : n ≤ (reserveOp v n).cap := by
  unfold reserveOp
  by_cases h : v.cap < n
  · simpa [h] using growCap_ge_req v.cap n
  · simp [h]; omega

lemma reserveOp_cap_ge_cap (v : Model) (n : Nat) : v.cap ≤ (reserveOp v n).cap := by
  unfold reserveOp grow growCap
  by_cases h : v.cap < n
  · by_cases h0 : v.cap = 0
    · simp only [h, if_true, h0]
      omega
    · simp only [h, if_true, h0, if_false]
      show v.cap ≤ max n (2 * v.cap)
      omega
  · simp [h]

lemma pushBack_data (v : Model) (x : Int) : (pushBack v x).data = v.data ++ [x] := by
  unfold pushBack
  by_cases h : v.cap ≤ v.data.length <;> simp [h, grow_data]

lemma pushBack_inv {v : Model} (x : Int) (h : inv v) : inv (pushBack v x) := by
  unfold inv pushBack at *
  by_cases hc : v.cap ≤ v.data.length
  · have hs : v.data.length = v.cap := le_antisymm h hc
    simp only [hc, if_true, grow_data, List.length_append, List.length_singleton]
    show v.data.length + 1 ≤ (grow v 0).cap
    unfold grow growCap
    by_cases h0 : v.cap = 0
    · simp only [h0, if_true]
      omega
    · simp only [h0, if_false]
      show v.data.length + 1 ≤ max 0 (2 * v.cap)
      omega
  · simp only [hc, if_false, List.length_append, List.length_singleton]
    show v.data.length + 1 ≤ v.cap
    omega

lemma popBack_inv {v : Model} (h : inv v) : inv (popBack v).2 := by
  unfold inv popBack at *
  simp only [List.length_dropLast]
  omega

lemma reserveOp_inv {v : Model} (n : Nat) (h : inv v) : inv (reserveOp v n) := by
  unfold inv at *
  rw [reserveOp_data]
  exact le_trans h (reserveOp_cap_ge_cap v n)

lemma resize_inv {v : Model} (s : Nat) (h : inv v) : inv (resize v s) := by
  unfold inv resize at *
  by_cases hs : s ≤ v.data.length
  · simp only [hs, if_true, List.length_take]
    omega
  · simp only [hs, if_false, List.length_append, List.length_replicate,
      reserveOp_data]
    have h1 := reserveOp_cap_ge v s
    omega

lemma fillLoop_len_le (mk : Nat → Option Int) (s : Nat) :
    ∀ (n : Nat) (data : List Int), s - data.length = n → data.length ≤ s →
    (fillLoop data mk data.length s).1.length ≤ s := by
  intro n
  induction n with
  | zero =>
    intro data hn hle
    have hns : ¬ data.length < s := by omega
    rw [fillLoop]
    simp only [hns, if_false]
    omega
  | succ n ih =>
    intro data hn hle
    have hlt : data.length < s := by omega
    rw [fillLoop]
    simp only [hlt, if_true]
    cases hmk : mk data.length with
    | none => simpa using hle
    | some x =>
      have h2 := ih (data ++ [x]) (by simp; omega) (by simp; omega)
      simpa [List.length_append] using h2

lemma resizeFill_inv {v : Model} (s : Nat) (mk : Nat → Option Int) (h : inv v) :
    inv (resizeFill v s mk).1 := by
  unfold inv resizeFill at *
  by_cases hs : s ≤ v.data.length
  · simp only [hs, if_true, List.length_take]
    omega
  · simp only [hs, if_false]
    have h1 := reserveOp_cap_ge v s
    have h2 : (reserveOp v s).data.length ≤ s := by
      rw [reserveOp_data]; omega
    have h3 := fillLoop_len_le mk s (s - (reserveOp v s).data.length)
      (reserveOp v s).data rfl h2
    omega

lemma rotateSeg_length {l : List Int} {first mid : Nat}
    (h1 : first ≤ mid) (h2 : mid ≤ l.length) :
    (rotateSeg l first mid).length = l.length := by
  unfold rotateSeg
  simp only [List.length_append, List.length_take, List.length_drop]
  omega

lemma insert_data_eq (v : Model) (pos : Nat) (x : Int) :
    (insert v pos x).data = rotateSeg (pushBack v x).data pos v.data.length := rfl

lemma insert_cap_eq (v : Model) (pos : Nat) (x : Int) :
    (insert v pos x).cap = (pushBack v x).cap := rfl

lemma insert_inv {v : Model} (pos : Nat) (x : Int) (hpos : pos ≤ v.data.length)
    (h : inv v) : inv (insert v pos x) := by
  have hlen : (pushBack v x).data.length = v.data.length + 1 := by
    rw [pushBack_data]; simp
  unfold inv
  rw [insert_data_eq, insert_cap_eq, rotateSeg_length (by omega) (by omega)]
  exact pushBack_inv x h

lemma erase_inv {v : Model} (first last : Nat) (h : inv v) :
    inv (erase v first last).1 := by
  unfold inv erase at *
  by_cases hd : last - first = 0
  · simpa [hd] using h
  · simp only [hd, if_false, List.length_append, List.length_take, List.length_drop]
    omega

lemma pushList_inv {xs : List Int} : ∀ {v : Model}, inv v → inv (pushList v xs) := by
  unfold pushList
  induction xs with
  | nil => intro v h; simpa using h
  | cons x xs ih =>
    intro v h
    simp only [List.foldl_cons]
    exact ih (pushBack_inv x h)

lemma assign_inv {v : Model} (xs : List Int) (h : inv v) : inv (assign v xs) := by
  unfold assign
  by_cases hl : xs.length ≤ v.data.length
  · simp only [hl, if_true]
    show xs.length ≤ v.cap
    unfold inv at h
    omega
  · simp only [hl, if_false]
    apply pushList_inv
    unfold inv at *
    simp only [List.length_take]
    omega

lemma clear_inv (v : Model) : inv (clear v) := by
  unfold inv clear
  simp

lemma pushBack_cap (v : Model) (x : Int) :
    (pushBack v x).cap = if v.cap ≤ v.data.length then growCap v.cap 0 else v.cap := by
  unfold pushBack
  by_cases h : v.cap ≤ v.data.length
  · simp [h, grow]
  · simp [h]

lemma builtChunk_cons (mk : Nat → Option Int) (i k : Nat) (h : i < k) :
    builtChunk mk i k = (mk i).getD 0 :: builtChunk mk (i + 1) k := by
  unfold builtChunk
  have hk : k - i = (k - (i + 1)) + 1 := by omega
  rw [hk, List.range_succ_eq_map, List.map_cons, List.map_map]
  simp only [Nat.add_zero]
  congr 1
  refine List.map_congr_left ?_
  intro a _
  show (mk (i + Nat.succ a)).getD 0 = (mk (i + 1 + a)).getD 0
  rw [show i + Nat.succ a = i + 1 + a from by omega]

lemma fillLoop_fail (mk : Nat → Option Int) (s k : Nat) (hks : k < s)
    (hk : mk k = none) :
    ∀ (n : Nat) (data : List Int), k - data.length = n → data.length ≤ k →
    (∀ i, data.length ≤ i → i < k → (mk i).isSome = true) →
    fillLoop data mk data.length s = (data ++ builtChunk mk data.length k, true) := by
  intro n
  induction n with
  | zero =>
    intro data hn hle _
    have heq : data.length = k := by omega
    subst heq
    rw [fillLoop]
    simp only [hks, if_true, hk]
    simp [builtChunk]
  | succ n ih =>
    intro data hn hle hsome
    have hlt : data.length < k := by omega
    obtain ⟨x, hx⟩ : ∃ x, mk data.length = some x := by
      have h1 := hsome data.length le_rfl hlt
      cases hmk : mk data.length with
      | none => rw [hmk] at h1; simp at h1
      | some y => exact ⟨y, rfl⟩
    have hlts : data.length < s := by omega
    rw [fillLoop]
    simp only [hlts, if_true, hx]
    have h2 := ih (data ++ [x]) (by simp; omega) (by simp; omega)
      (by intro i hi1 hi2; exact hsome i (by simp at hi1; omega) hi2)
    have hlen : (data ++ [x]).length = data.length + 1 := by simp
    rw [hlen] at h2
    rw [h2, builtChunk_cons mk data.length k hlt, hx]
    simp


/-- C1: for every container state reachable from the empty container by any
sequence of public operations (push_back, pop_back, reserve, resize, insert,
erase, assign, clear, swap) within their preconditions, the invariant
`0 ≤ size ≤ capacity` holds. -/
theorem reachable_size_le_cap (v : Model) (h : Reachable v) :
    0 ≤ v.data.length ∧ v.data.length ≤ v.cap := by
  refine ⟨Nat.zero_le _, ?_⟩
  induction h with
  | empty => exact le_rfl
  | push x _ ih => exact pushBack_inv x ih
  | pop _ _ ih => exact popBack_inv ih
  | reserve n _ ih => exact reserveOp_inv n ih
  | resize n _ ih => exact resize_inv n ih
  | resizeFill n mk _ ih => exact resizeFill_inv n mk ih
  | insert pos x _ hpos ih => exact insert_inv pos x hpos ih
  | erase first last _ h1 h2 ih => exact erase_inv first last ih
  | assign xs _ ih => exact assign_inv xs ih
  | clear _ ih => exact clear_inv _
  | swapFst _ _ ih1 ih2 => exact ih2
  | swapSnd _ _ ih1 ih2 => exact ih1

/-- Witness for C1 at the concrete reachable state `push_back 5` on empty. -/
theorem reachable_size_le_cap_witness :
    0 ≤ (pushBack emptyVec 5).data.length
    ∧ (pushBack emptyVec 5).data.length ≤ (pushBack emptyVec 5).cap :=
  reachable_size_le_cap (pushBack emptyVec 5) (Reachable.push 5 Reachable.empty)

/-- C2: a `push_back` on a full container with capacity `c > 0` grows the
capacity to `max(c*2, 1)` (the requested capacity defaults to 0, so the
doubling rule applies), and every element present before the growth is still
present at the same logical index afterwards. -/
theorem pushBack_growth_doubles (v : Model) (x : Int) (hc : 0 < v.cap)
    (hs : v.data.length = v.cap) :
    (pushBack v x).cap = max (v.cap * 2) 1
    ∧ ∀ i, i < v.data.length → (pushBack v x).data.getD i 0 = v.data.getD i 0 := by
  constructor
  · rw [pushBack_cap]
    have h1 : v.cap ≤ v.data.length := by omega
    have h0 : ¬ v.cap = 0 := by omega
    unfold growCap
    simp only [h1, if_true, h0, if_false]
    omega
  · intro i hi
    rw [pushBack_data]
    exact List.getD_append _ _ _ _ hi

/-- Witness for C2 on the full container `⟨[5, 7], 2⟩`. -/
theorem pushBack_growth_doubles_witness :
    (pushBack ⟨[5, 7], 2⟩ 9).cap = max (2 * 2) 1
    ∧ (pushBack ⟨[5, 7], 2⟩ 9).data.getD 0 0 = 5 := by
  have h := pushBack_growth_doubles ⟨[5, 7], 2⟩ 9 (by decide) (by decide)
  exact ⟨h.1, h.2 0 (by decide)⟩

/-- C3: every growth of a container whose current capacity is 0 yields
capacity `max(requested, 1)`, hence at least 1; in particular the growth
triggered by the first `push_back` (requested capacity defaults to 0) yields
capacity 1. -/
theorem grow_from_zero_cap (v : Model) (req : Nat) (x : Int) (h : v.cap = 0) :
    (grow v req).cap = max req 1
    ∧ 1 ≤ (grow v req).cap
    ∧ (pushBack v x).cap = 1 := by
  have hg : (grow v req).cap = growCap v.cap req := rfl
  refine ⟨?_, ?_, ?_⟩
  · rw [hg]
    unfold growCap
    simp [h]
  · rw [hg]
    exact growCap_pos _ _
  · rw [pushBack_cap]
    have hle : v.cap ≤ v.data.length := by omega
    simp only [hle, if_true]
    unfold growCap
    simp [h]

/-- Witness for C3 on the empty container. -/
theorem grow_from_zero_cap_witness :
    (grow emptyVec 5).cap = max 5 1
    ∧ 1 ≤ (grow emptyVec 5).cap
    ∧ (pushBack emptyVec 3).cap = 1 :=
  grow_from_zero_cap emptyVec 5 3 rfl

/-- C4 counterexample: `reserve(3)` on a container with capacity 2 yields
capacity `max(3, 2*2) = 4`, not exactly 3 — the doubling rule is not
suppressed for explicit requested capacities. -/
theorem reserve_not_exact_counterexample :
    (reserveOp ⟨[1, 2], 2⟩ 3).cap = 4 ∧ (reserveOp ⟨[1, 2], 2⟩ 3).cap ≠ 3 := by
  decide

/-- C4 (amended): `reserve(n)` changes nothing when `n ≤ capacity`; when
`n > capacity` it grows with requested capacity exactly `n`, but the growth
rule still applies, so the resulting capacity is `max(n, capacity*2)` (which
is exactly `n` when the capacity was 0); the element sequence is unchanged. -/
theorem reserve_spec (v : Model) (n : Nat) :
    (n ≤ v.cap → reserveOp v n = v)
    ∧ (v.cap < n →
        (reserveOp v n).cap = (if v.cap = 0 then n else max n (2 * v.cap))
        ∧ (reserveOp v n).data = v.data) := by
  constructor
  · intro h
    unfold reserveOp
    have h2 : ¬ v.cap < n := by omega
    simp [h2]
  · intro h
    constructor
    · unfold reserveOp
      simp only [h, if_true]
      show growCap v.cap n = _
      unfold growCap
      by_cases h0 : v.cap = 0
      · simp only [h0, if_true]
        omega
      · simp only [h0, if_false]
    · exact reserveOp_data v n

/-- Witness for C4 (amended) on the container `⟨[1, 2], 2⟩`. -/
theorem reserve_spec_witness :
    reserveOp ⟨[1, 2], 2⟩ 2 = ⟨[1, 2], 2⟩
    ∧ (reserveOp ⟨[1, 2], 2⟩ 3).cap = (if (2 : Nat) = 0 then 3 else max 3 (2 * 2)) :=
  ⟨(reserve_spec ⟨[1, 2], 2⟩ 2).1 (by decide),
   ((reserve_spec ⟨[1, 2], 2⟩ 3).2 (by decide)).1⟩

/-- C5: during `resize(n, fill)` on a container of size `s < n`, if copy
construction succeeds on slots `[s, k)` and fails at slot `k` (`s ≤ k < n`),
the container ends in a valid state (`size ≤ capacity`) of logical size
exactly `k`, holding the original `s` elements followed by the `k - s`
successfully constructed copies, and the failure is propagated
(result flag `true`). -/
theorem resizeFill_rollback (v : Model) (n k : Nat) (mk : Nat → Option Int)
    (hn : v.data.length < n) (hk1 : v.data.length ≤ k) (hk2 : k < n)
    (hsome : ∀ i, v.data.length ≤ i → i < k → (mk i).isSome = true)
    (hnone : mk k = none) :
    (resizeFill v n mk).2 = true
    ∧ (resizeFill v n mk).1.data = v.data ++ builtChunk mk v.data.length k
    ∧ (resizeFill v n mk).1.data.length = k
    ∧ inv (resizeFill v n mk).1 := by
  have hns : ¬ n ≤ v.data.length := by omega
  have hrd : (reserveOp v n).data = v.data := reserveOp_data v n
  have hfl := fillLoop_fail mk n k hk2 hnone (k - v.data.length) v.data rfl hk1 hsome
  have hru : resizeFill v n mk =
      (⟨(fillLoop v.data mk v.data.length n).1, (reserveOp v n).cap⟩,
       (fillLoop v.data mk v.data.length n).2) := by
    unfold resizeFill
    simp only [hns, if_false, hrd]
  rw [hru, hfl]
  have hlen : (v.data ++ builtChunk mk v.data.length k).length = k := by
    simp only [List.length_append, builtChunk, List.length_map, List.length_range]
    omega
  refine ⟨rfl, rfl, hlen, ?_⟩
  show (v.data ++ builtChunk mk v.data.length k).length ≤ (reserveOp v n).cap
  have hcap := reserveOp_cap_ge v n
  omega

/-- Witness for C5: size 2, `resize(5, fill)` whose copy construction succeeds
at slot 2 (value 77) and fails at slot 3: the failure propagates and the
container holds `[10, 20, 77]`. -/
theorem resizeFill_rollback_witness :
    (resizeFill ⟨[10, 20], 2⟩ 5 (fun i => if i = 2 then some 77 else none)).2 = true
    ∧ (resizeFill ⟨[10, 20], 2⟩ 5
        (fun i => if i = 2 then some 77 else none)).1.data = [10, 20, 77] := by
  have h := resizeFill_rollback ⟨[10, 20], 2⟩ 5 3
    (fun i => if i = 2 then some 77 else none)
    (by decide) (by decide) (by decide)
    (by
      intro i h1 h2
      have h3 : 2 ≤ i := by simpa using h1
      have hi : i = 2 := by omega
      subst hi
      simp)
    (by simp)
  refine ⟨h.1, ?_⟩
  rw [h.2.1]
  decide

/-- C6: `at(index)` signals the distinguishable out-of-range error exactly
when `index ≥ size`: `at(size)` errors for every container, `at(size - 1)`
succeeds (returning the element, never a clamped index) whenever `size ≥ 1`;
`at` is a read-only accessor, so the container is unchanged. -/
theorem at_bounds (v : Model) (idx : Nat) :
    (atIdx v idx = .error () ↔ v.data.length ≤ idx)
    ∧ atIdx v v.data.length = .error ()
    ∧ (1 ≤ v.data.length →
        atIdx v (v.data.length - 1) = .ok (v.data.getD (v.data.length - 1) 0)) := by
  refine ⟨?_, ?_, ?_⟩
  · unfold atIdx
    by_cases h : v.data.length ≤ idx
    · simp [h]
    · simp [h]
  · unfold atIdx
    simp
  · intro h1
    unfold atIdx
    have h2 : ¬ v.data.length ≤ v.data.length - 1 := by omega
    simp [h2]

/-- Witness for C6 on `⟨[3, 4], 2⟩` (size 2): `at(2)` errors, `at(1)`
returns the element 4. -/
theorem at_bounds_witness :
    atIdx ⟨[3, 4], 2⟩ 2 = .error () ∧ atIdx ⟨[3, 4], 2⟩ 1 = .ok 4 :=
  ⟨(at_bounds ⟨[3, 4], 2⟩ 2).2.1, (at_bounds ⟨[3, 4], 2⟩ 2).2.2 (by decide)⟩

/-- C7: behavior of `erase` at the decisive inputs. Erasing the half-open
range covering values 2 and 3 from `[1, 2, 3, 4, 5]` shifts the tail down,
drops the size by 2, yields `[1, 4, 5]` and returns position 1 (the first
element after the erased range). But erasing an empty range hits
`if (d == 0) return;` (`vector.hpp:274`) — a valueless `return` in a function
returning `T*` — so while the state is untouched, no pointer value is
produced (`none`), contradicting the claimed returned iterator. -/
theorem erase_behavior_at_inputs :
    erase ⟨[1, 2, 3, 4, 5], 5⟩ 1 1 = (⟨[1, 2, 3, 4, 5], 5⟩, none)
    ∧ (erase ⟨[1, 2, 3, 4, 5], 5⟩ 1 3).1 = ⟨[1, 4, 5], 5⟩
    ∧ (erase ⟨[1, 2, 3, 4, 5], 5⟩ 1 3).2 = some 1 := by
  decide

/-- C8: `insert(position, value)` appends the element and rotates it into
place, so the resulting order is the elements before the position, the new
element, then the elements after the position, preserving the relative order
on both sides. -/
theorem insert_order (v : Model) (pos : Nat) (x : Int) (h : pos ≤ v.data.length) :
    (insert v pos x).data = v.data.take pos ++ x :: v.data.drop pos := by
  rw [insert_data_eq, pushBack_data]
  unfold rotateSeg
  rw [List.take_append_of_le_length h, List.drop_left,
    List.drop_append_of_le_length h, List.take_left' (by simp)]
  simp

/-- Witness for C8: inserting 99 before the 3rd element of `[1, 2, 3, 4]`
yields `[1, 2, 99, 3, 4]`. -/
theorem insert_order_witness :
    (insert ⟨[1, 2, 3, 4], 4⟩ 2 99).data = [1, 2, 99, 3, 4] := by
  have h := insert_order ⟨[1, 2, 3, 4], 4⟩ 2 99 (by decide)
  rw [h]
  decide

/-- C9: running any sequence of public operations through a `LocalCapture`
scope (move the state into the local on construction, operate on the local,
move it back on destruction) leaves the original slot in exactly the state
that running the same operations directly on the container produces. -/
theorem capture_roundtrip (v : Model) (ops : List Op) :
    captureRun v ops = runOps ops v := rfl

/-- C10: move assignment is a state swap (`Swap(other)`): the target takes the
source's former state and the source takes the target's former state, so the
moved-from container is not necessarily empty; move construction, by
contrast, always leaves the source in the empty state. -/
theorem move_semantics (a b : Model) :
    moveAssign a b = (b, a)
    ∧ moveCtor b = (b, emptyVec)
    ∧ ∃ c d : Model, (moveAssign c d).2 ≠ emptyVec :=
  ⟨rfl, rfl, ⟨⟨[1], 1⟩, emptyVec, by decide⟩⟩

end Gerben
